import Mathlib

set_option maxHeartbeats 4000000

/-!
Verification of the NorthstarET.Lms specification-input model and service.

The development shallowly embeds `src/models/spec_input.py` (class `SpecInput`)
and `src/services/spec_input_service.py` (classes `SpecInputProcessingResult`
and `SpecInputService`).  Python strings are modelled as `String` (sequences of
code points, manipulated through `List Char`), timestamps as `Nat` clock values
passed in explicitly, and `raise ValueError` as the `Except.error` constructor.
Python whitespace (`str.strip`) is modelled by `Char.isWhitespace`.
-/

/-- Python `str.lstrip`-style removal of leading whitespace from a char list. -/
def lstripL (l : List Char) : List Char := l.dropWhile Char.isWhitespace

/-- Python `str.strip()`: drop leading whitespace, then trailing whitespace. -/
def stripList (l : List Char) : List Char := (lstripL ((lstripL l).reverse)).reverse

/-- Python `content.strip()` at the `String` level. -/
def pyStrip (s : String) : String := (stripList s.toList).asString

/-- Python `str.lower()` (ASCII case folding, as used on format names). -/
def lowerStr (s : String) : String := (s.toList.map Char.toLower).asString

/-- Case-insensitive prefix test: the pattern is given in lower case and each
input character is lower-cased before comparison (regex `re.IGNORECASE`). -/
def startsWithCI : List Char → List Char → Bool
  | [], _ => true
  | _ :: _, [] => false
  | p :: ps, c :: cs => p == c.toLower && startsWithCI ps cs

/-- Scan `[^>]*>` : drop characters up to and including the first `>`, or fail
if no `>` occurs.  Because `[^>]*` cannot cross a `>`, a Python regex match of
`[^>]*>` always ends at the first `>`. -/
def dropToGt : List Char → Option (List Char)
  | [] => none
  | c :: cs => if c == '>' then some cs else dropToGt cs

/-- Find the first case-insensitive occurrence of the literal closing tag
`</t>` and return the remainder after it (the non-greedy `.*?</t>` with
`re.DOTALL`: shortest match, `.` crossing newlines). -/
def findClose (t : List Char) : List Char → Option (List Char)
  | [] => none
  | c :: cs =>
    if startsWithCI ('<' :: '/' :: (t ++ ['>'])) (c :: cs) then
      some ((c :: cs).drop (t.length + 3))
    else
      findClose t cs

/-- Try to match the paired-tag pattern `<t[^>]*>.*?</t>` (flags
`re.DOTALL | re.IGNORECASE`) at the head of `s`; on success return the
remainder of `s` after the whole match. -/
def matchPaired (t : List Char) (s : List Char) : Option (List Char) :=
  if startsWithCI ('<' :: t) s then
    match dropToGt (s.drop (t.length + 1)) with
    | none => none
    | some r => findClose t r
  else
    none

/-- Try to match the unpaired-tag pattern `<t[^>]*/?>` (flag `re.IGNORECASE`)
at the head of `s`.  Since `/` is itself matched by `[^>]*`, the pattern is
equivalent to `<t[^>]*>`: the match ends at the first `>` after `<t`. -/
def matchOpen (t : List Char) (s : List Char) : Option (List Char) :=
  if startsWithCI ('<' :: t) s then
    dropToGt (s.drop (t.length + 1))
  else
    none

/-- `re.sub(pattern, '', s)` for the paired-tag pattern: scan left to right,
deleting each non-overlapping leftmost match and resuming after it.  The `Nat`
fuel is initialised to the length of the list; every recursive call strictly
shrinks the list, so the fuel is never exhausted before the list is empty. -/
def subPairedAux (t : List Char) : Nat → List Char → List Char
  | 0, s => s
  | Nat.succ f, s =>
    match s with
    | [] => []
    | c :: cs =>
      match matchPaired t (c :: cs) with
      | some rest => subPairedAux t f rest
      | none => c :: subPairedAux t f cs

/-- Delete every paired-tag block `<t[^>]*>.*?</t>` from `s`. -/
def subPairedL (t : List Char) (s : List Char) : List Char :=
  subPairedAux t s.length s

/-- `re.sub` for the unpaired-tag pattern `<t[^>]*/?>`, same scanning scheme. -/
def subOpenAux (t : List Char) : Nat → List Char → List Char
  | 0, s => s
  | Nat.succ f, s =>
    match s with
    | [] => []
    | c :: cs =>
      match matchOpen t (c :: cs) with
      | some rest => subOpenAux t f rest
      | none => c :: subOpenAux t f cs

/-- Delete every unpaired tag `<t[^>]*/?>` from `s`. -/
def subOpenL (t : List Char) (s : List Char) : List Char :=
  subOpenAux t s.length s

/-- The tag name of the dedicated script-removal pass. -/
def scriptT : List Char := "script".toList

/-- `harmful_tags = ['iframe', 'object', 'embed', 'form', 'input']` from
`SpecInput.sanitize`. -/
def harmful_tags : List (List Char) :=
  ["iframe".toList, "object".toList, "embed".toList, "form".toList, "input".toList]

/-- The removal phase of `SpecInput.sanitize`: first the script-block pass,
then, for each harmful tag in order, the paired-block pass followed by the
unpaired-tag pass. -/
def removeHarmful (l : List Char) : List Char :=
  List.foldl (fun acc t => subOpenL t (subPairedL t acc)) (subPairedL scriptT l) harmful_tags

/-- The full content transformation of `SpecInput.sanitize` (removal passes,
then `strip()`), as a pure function of the content. -/
def sanitizeList (l : List Char) : List Char :=
  stripList (removeHarmful l)

/-- `SpecInput.sanitize`'s content transformation at the `String` level. -/
def sanitizeContent (content : String) : String :=
  (sanitizeList content.toList).asString

/-- Substring occurrence test (used to state that no `<script>` remains). -/
def containsSeq (pat : List Char) : List Char → Bool
  | [] => pat.isEmpty
  | c :: cs => pat.isPrefixOf (c :: cs) || containsSeq pat cs

/-- Substring test at the `String` level. -/
def containsSub (pat s : String) : Bool := containsSeq pat.toList s.toList

/-- The `SpecInput` model: `content`, lower-cased `format`, opaque `metadata`,
UTC `created_at` (a clock value), and the memoised `_sanitized_content`. -/
structure SpecInput where
  content : String
  format : String
  metadata : List (String × String)
  created_at : Nat
  sanitized_cache : Option String
  deriving DecidableEq

/-- `SpecInput.MIN_CONTENT_LENGTH = 2`. -/
def SpecInput.MIN_CONTENT_LENGTH : Nat := 2

/-- `SpecInput.VALID_FORMATS = `the set of the three recognized format names
(a Python `set`; modelled as a list, membership order-independent). -/
def SpecInput.VALID_FORMATS : List String := ["markdown", "text", "html"]

/-- `SpecInput.__init__(content, format='text', metadata=None)`: the format is
lower-cased, or replaced by `"text"` when the supplied string is empty (falsy);
missing metadata becomes an empty mapping; the sanitize cache starts unset. -/
def SpecInput.make (content : String) (format : String)
    (metadata : Option (List (String × String))) (now : Nat) : SpecInput :=
  { content := content
    format := if format = "" then "text" else lowerStr format
    metadata := metadata.getD []
    created_at := now
    sanitized_cache := none }

/-- `SpecInput.is_valid`: trimmed content at least `MIN_CONTENT_LENGTH` long
and format among `VALID_FORMATS`. -/
def SpecInput.is_valid (s : SpecInput) : Bool :=
  if (pyStrip s.content).length < SpecInput.MIN_CONTENT_LENGTH then false
  else if ¬ (SpecInput.VALID_FORMATS.contains s.format) then false
  else true

/-- `SpecInput.sanitize`: return the cached sanitized content if present,
otherwise compute it, store it in the cache, and return it.  The second
component is the instance after the call (Python mutates `self`). -/
def SpecInput.sanitize (s : SpecInput) : String × SpecInput :=
  match s.sanitized_cache with
  | some c => (c, s)
  | none =>
    let c := sanitizeContent s.content
    (c, { s with sanitized_cache := some c })

/-- `SpecInput.__str__`. -/
def SpecInput.str (s : SpecInput) : String :=
  "SpecInput(format=" ++ s.format ++ ", length=" ++ toString s.content.length
    ++ ", valid=" ++ (if s.is_valid then "True" else "False") ++ ")"

/-- The `data` dictionary of a `SpecInputProcessingResult`: empty, the
processed-spec metrics of a success, or the validation-error list. -/
inductive ResultData where
  | empty : ResultData
  | metrics (original_length sanitized_length : Nat) (format : String)
      (created_at processed_at : Nat) : ResultData
  | errors (errs : List String) : ResultData
  deriving DecidableEq

/-- `SpecInputProcessingResult(success, message, data)` with its construction
timestamp. -/
structure SpecInputProcessingResult where
  success : Bool
  message : String
  data : ResultData
  timestamp : Nat
  deriving DecidableEq

/-- The argument of `process_spec`: either an actual `SpecInput` instance or
any other Python value (e.g. a plain string), for the `isinstance` check. -/
inductive ProcessArg where
  | spec (s : SpecInput) : ProcessArg
  | other (descr : String) : ProcessArg
  deriving DecidableEq

/-- `SpecInputService`: its only state is `_processed_specs`. -/
structure SpecInputService where
  processed_specs : List SpecInput
  deriving DecidableEq

/-- `SpecInputService.process_spec`.  The first component is the returned
result (`Except.error` models the `raise ValueError` on an invalid spec); the
second is the service state after the call, which survives the raise.  The
`try`-block around sanitization never raises in this embedding (sanitization
is total), so the `except` branch is unreachable and not modelled. -/
def SpecInputService.process_spec (svc : SpecInputService) (arg : ProcessArg)
    (now : Nat) : Except String SpecInputProcessingResult × SpecInputService :=
  match arg with
  | ProcessArg.other _ =>
    (Except.ok
      { success := false
        message := "Invalid input: must be SpecInput instance"
        data := ResultData.empty
        timestamp := now }, svc)
  | ProcessArg.spec sp =>
    if ¬ sp.is_valid then
      (Except.error ("Invalid specification: " ++ sp.str), svc)
    else
      let p := sp.sanitize
      (Except.ok
        { success := true
          message := "Specification processed successfully"
          data := ResultData.metrics sp.content.length p.1.length sp.format
            sp.created_at now
          timestamp := now },
       { svc with processed_specs := svc.processed_specs ++ [p.2] })

/-- `SpecInputService._get_validation_errors`: the "content too short" message
iff the trimmed content is shorter than the minimum, then the
"invalid format" message iff the format is not recognized.  (CPython iterates
the `VALID_FORMATS` set in an implementation-defined order when joining; the
model joins in the order the set literal is written.) -/
def SpecInputService.get_validation_errors (sp : SpecInput) : List String :=
  (if (pyStrip sp.content).length < SpecInput.MIN_CONTENT_LENGTH then
    ["Content too short (minimum " ++ toString SpecInput.MIN_CONTENT_LENGTH
      ++ " characters)"]
  else []) ++
  (if ¬ (SpecInput.VALID_FORMATS.contains sp.format) then
    ["Invalid format \x27" ++ sp.format ++ "\x27. Valid formats: "
      ++ String.intercalate ", " SpecInput.VALID_FORMATS]
  else [])

/-- `SpecInputService.handle_invalid_spec` (never raises: a total function). -/
def SpecInputService.handle_invalid_spec (_svc : SpecInputService)
    (arg : Option SpecInput) (now : Nat) : SpecInputProcessingResult :=
  match arg with
  | none =>
    { success := false
      message := "Cannot process null specification"
      data := ResultData.empty
      timestamp := now }
  | some sp =>
    { success := false
      message := "Invalid specification: " ++ sp.str
      data := ResultData.errors (SpecInputService.get_validation_errors sp)
      timestamp := now }

/-- `SpecInputService.get_processed_count`. -/
def SpecInputService.get_processed_count (svc : SpecInputService) : Nat :=
  svc.processed_specs.length

/-- `SpecInputService.get_processed_specs` (a copy of the history; copies of
immutable lists are the lists themselves). -/
def SpecInputService.get_processed_specs (svc : SpecInputService) :
    List SpecInput :=
  svc.processed_specs

/-- `SpecInputService.clear_processed_specs`. -/
def SpecInputService.clear_processed_specs (svc : SpecInputService) :
    SpecInputService :=
  { svc with processed_specs := [] }

/-- A `SpecInput` whose sanitize cache is either unset or holds the
sanitization of its current content — the invariant of every instance that has
not had its `content` field externally mutated after calling `sanitize`. -/
def CacheConsistent (sp : SpecInput) : Prop :=
  sp.sanitized_cache = none ∨ sp.sanitized_cache = some (sanitizeContent sp.content)

/-! ### Length bounds for the removal passes -/

theorem dropToGt_length {s r : List Char} (h : dropToGt s = some r) :
    r.length < s.length := by
  induction s with
  | nil => simp [dropToGt] at h
  | cons c cs ih =>
    rw [dropToGt] at h
    by_cases hc : (c == '>') = true
    · rw [if_pos hc] at h
      simp only [Option.some.injEq] at h
      subst h
      exact Nat.lt_succ_self _
    · rw [if_neg hc] at h
      exact Nat.lt_succ_of_lt (ih h)

theorem findClose_length {t s r : List Char} (h : findClose t s = some r) :
    r.length < s.length := by
  induction s with
  | nil => simp [findClose] at h
  | cons c cs ih =>
    rw [findClose] at h
    by_cases hc : startsWithCI ('<' :: '/' :: (t ++ ['>'])) (c :: cs) = true
    · rw [if_pos hc] at h
      simp only [Option.some.injEq] at h
      subst h
      simp only [List.length_drop, List.length_cons]
      omega
    · rw [if_neg hc] at h
      exact Nat.lt_succ_of_lt (ih h)

theorem matchPaired_length {t s r : List Char} (h : matchPaired t s = some r) :
    r.length < s.length := by
  rw [matchPaired] at h
  by_cases hs : startsWithCI ('<' :: t) s = true
  · rw [if_pos hs] at h
    cases hd : dropToGt (s.drop (t.length + 1)) with
    | none => rw [hd] at h; exact absurd h (by simp)
    | some r2 =>
      rw [hd] at h
      have h1 : r2.length < (s.drop (t.length + 1)).length := dropToGt_length hd
      have h2 : r.length < r2.length := findClose_length h
      have h3 : (s.drop (t.length + 1)).length ≤ s.length := by
        simp only [List.length_drop]
        omega
      omega
  · rw [if_neg hs] at h
    exact absurd h (by simp)

theorem matchOpen_length {t s r : List Char} (h : matchOpen t s = some r) :
    r.length < s.length := by
  rw [matchOpen] at h
  by_cases hs : startsWithCI ('<' :: t) s = true
  · rw [if_pos hs] at h
    have h1 : r.length < (s.drop (t.length + 1)).length := dropToGt_length h
    have h3 : (s.drop (t.length + 1)).length ≤ s.length := by
      simp only [List.length_drop]
      omega
    omega
  · rw [if_neg hs] at h
    exact absurd h (by simp)

theorem subPairedAux_length (t : List Char) :
    ∀ (f : Nat) (s : List Char), (subPairedAux t f s).length ≤ s.length := by
  intro f
  induction f with
  | zero => intro s; exact Nat.le_refl _
  | succ f ih =>
    intro s
    cases s with
    | nil => exact Nat.le_refl _
    | cons c cs =>
      rw [subPairedAux]
      cases hm : matchPaired t (c :: cs) with
      | some rest =>
        simp only
        have h1 := matchPaired_length hm
        have h2 := ih rest
        omega
      | none =>
        simp only [List.length_cons]
        have h2 := ih cs
        omega

theorem subOpenAux_length (t : List Char) :
    ∀ (f : Nat) (s : List Char), (subOpenAux t f s).length ≤ s.length := by
  intro f
  induction f with
  | zero => intro s; exact Nat.le_refl _
  | succ f ih =>
    intro s
    cases s with
    | nil => exact Nat.le_refl _
    | cons c cs =>
      rw [subOpenAux]
      cases hm : matchOpen t (c :: cs) with
      | some rest =>
        simp only
        have h1 := matchOpen_length hm
        have h2 := ih rest
        omega
      | none =>
        simp only [List.length_cons]
        have h2 := ih cs
        omega

theorem subPairedL_length (t s : List Char) : (subPairedL t s).length ≤ s.length :=
  subPairedAux_length t s.length s

theorem subOpenL_length (t s : List Char) : (subOpenL t s).length ≤ s.length :=
  subOpenAux_length t s.length s

theorem lstripL_length (l : List Char) : (lstripL l).length ≤ l.length :=
  (List.dropWhile_suffix _).length_le

theorem stripList_length (l : List Char) : (stripList l).length ≤ l.length := by
  unfold stripList
  rw [List.length_reverse]
  calc (lstripL (lstripL l).reverse).length
      ≤ (lstripL l).reverse.length := lstripL_length _
    _ = (lstripL l).length := List.length_reverse _
    _ ≤ l.length := lstripL_length _

theorem foldl_tags_length (ts : List (List Char)) :
    ∀ a : List Char,
      (List.foldl (fun acc t => subOpenL t (subPairedL t acc)) a ts).length
        ≤ a.length := by
  induction ts with
  | nil => intro a; exact Nat.le_refl _
  | cons t ts ih =>
    intro a
    rw [List.foldl_cons]
    calc (List.foldl (fun acc t => subOpenL t (subPairedL t acc))
            (subOpenL t (subPairedL t a)) ts).length
        ≤ (subOpenL t (subPairedL t a)).length := ih _
      _ ≤ (subPairedL t a).length := subOpenL_length _ _
      _ ≤ a.length := subPairedL_length _ _

theorem removeHarmful_length (l : List Char) :
    (removeHarmful l).length ≤ l.length := by
  unfold removeHarmful
  calc (List.foldl (fun acc t => subOpenL t (subPairedL t acc))
          (subPairedL scriptT l) harmful_tags).length
      ≤ (subPairedL scriptT l).length := foldl_tags_length _ _
    _ ≤ l.length := subPairedL_length _ _

theorem sanitizeList_length (l : List Char) :
    (sanitizeList l).length ≤ l.length :=
  Nat.le_trans (stripList_length _) (removeHarmful_length l)

theorem sanitizeContent_length (c : String) :
    (sanitizeContent c).length ≤ c.length :=
  sanitizeList_length c.toList

/-! ### Idempotence of `strip` -/

theorem dropWhile_head_not (p : Char → Bool) :
    ∀ l : List Char,
      l.dropWhile p = [] ∨ ∃ c cs, l.dropWhile p = c :: cs ∧ p c = false := by
  intro l
  induction l with
  | nil => exact Or.inl rfl
  | cons a as ih =>
    by_cases ha : p a = true
    · rw [List.dropWhile_cons, if_pos ha]
      exact ih
    · right
      exact ⟨a, as, by rw [List.dropWhile_cons, if_neg ha],
        Bool.eq_false_iff.mpr ha⟩

theorem dropWhile_noop {p : Char → Bool} {l : List Char}
    (h : l = [] ∨ ∃ c cs, l = c :: cs ∧ p c = false) : l.dropWhile p = l := by
  rcases h with h | ⟨c, cs, rfl, hc⟩
  · subst h; rfl
  · rw [List.dropWhile_cons, if_neg (by simp [hc])]

theorem lstripL_idem (l : List Char) : lstripL (lstripL l) = lstripL l :=
  dropWhile_noop (dropWhile_head_not Char.isWhitespace l)

theorem lstripL_rev_lstripL (l : List Char) :
    lstripL ((lstripL ((lstripL l).reverse)).reverse)
      = (lstripL ((lstripL l).reverse)).reverse := by
  apply dropWhile_noop
  cases hYr : (lstripL ((lstripL l).reverse)).reverse with
  | nil => exact Or.inl rfl
  | cons c cs =>
    refine Or.inr ⟨c, cs, rfl, ?_⟩
    have hsuf : lstripL ((lstripL l).reverse) <:+ (lstripL l).reverse :=
      List.dropWhile_suffix _
    have hpre : (lstripL ((lstripL l).reverse)).reverse
        <+: ((lstripL l).reverse).reverse :=
      List.reverse_prefix.mpr hsuf
    rw [List.reverse_reverse, hYr] at hpre
    rcases hpre with ⟨tl, htl⟩
    have htl' : (c :: cs) ++ tl = List.dropWhile Char.isWhitespace l := htl
    rcases dropWhile_head_not Char.isWhitespace l with h0 | ⟨c', cs', hc', hw'⟩
    · rw [h0] at htl'
      exact absurd htl' (by simp)
    · rw [hc'] at htl'
      simp only [List.cons_append, List.cons.injEq] at htl'
      rw [htl'.1]
      exact hw'

theorem stripList_idem (l : List Char) : stripList (stripList l) = stripList l := by
  show (lstripL ((lstripL (stripList l)).reverse)).reverse = stripList l
  have hfix : lstripL (stripList l) = stripList l := lstripL_rev_lstripL l
  rw [hfix]
  have h3 : (stripList l).reverse = lstripL ((lstripL l).reverse) :=
    List.reverse_reverse _
  rw [h3, lstripL_idem]
  rfl

/-- Converting a character list to a string and back is the identity. -/
theorem toList_asString (l : List Char) : l.asString.toList = l := rfl

/-! ### Characterization of validity -/

theorem contains_valid_formats (f : String) :
    SpecInput.VALID_FORMATS.contains f = true
      ↔ (f = "markdown" ∨ f = "text" ∨ f = "html") := by
  unfold SpecInput.VALID_FORMATS
  simp [List.contains]

theorem spec_is_valid_iff (sp : SpecInput) :
    sp.is_valid = true
      ↔ (2 ≤ (pyStrip sp.content).length
          ∧ (sp.format = "markdown" ∨ sp.format = "text" ∨ sp.format = "html")) := by
  unfold SpecInput.is_valid
  have hc := contains_valid_formats sp.format
  rcases Nat.lt_or_ge (pyStrip sp.content).length 2 with h1 | h1
  · rw [if_pos (by simpa [SpecInput.MIN_CONTENT_LENGTH] using h1)]
    constructor
    · intro h
      exact absurd h (by simp)
    · rintro ⟨h2, -⟩
      exact absurd h2 (by omega)
  · rw [if_neg (by simp [SpecInput.MIN_CONTENT_LENGTH]; omega)]
    by_cases h2 : SpecInput.VALID_FORMATS.contains sp.format = true
    · rw [if_neg (not_not_intro h2)]
      exact ⟨fun _ => ⟨h1, hc.mp h2⟩, fun _ => rfl⟩
    · rw [if_pos (by simpa using h2)]
      constructor
      · intro h
        exact absurd h (by simp)
      · rintro ⟨-, hf⟩
        exact absurd (hc.mpr hf) h2

/-- C1: for every `SpecInput` whose `is_valid` is false, `process_spec` raises
the invalid-specification `ValueError` (an `Except.error`, not a returned
failure result) whose description names the offending input via its string
representation, and the service state is untouched.  This path is distinct
from the type-check branch, which returns `Except.ok` with a failure result. -/
theorem process_spec_raises_on_invalid (svc : SpecInputService) (sp : SpecInput)
    (now : Nat) (h : sp.is_valid = false) :
    (svc.process_spec (ProcessArg.spec sp) now).1
        = Except.error ("Invalid specification: " ++ sp.str)
      ∧ (svc.process_spec (ProcessArg.spec sp) now).2 = svc := by
  simp [SpecInputService.process_spec, h]

/-- C1 witness: scenario B, content `"x"` with format `text` is invalid and
`process_spec` raises the hard-failure error on it. -/
theorem process_spec_raises_on_invalid_witness :
    (SpecInput.make "x" "text" none 0).is_valid = false
      ∧ ((SpecInputService.mk []).process_spec
          (ProcessArg.spec (SpecInput.make "x" "text" none 0)) 0).1
        = Except.error ("Invalid specification: "
            ++ (SpecInput.make "x" "text" none 0).str) :=
  ⟨by decide,
   (process_spec_raises_on_invalid (SpecInputService.mk [])
      (SpecInput.make "x" "text" none 0) 0 (by decide)).1⟩

/-- C2: a constructed `SpecInput` is valid iff its trimmed content has length
at least 2 and its stored format (lower-cased, `"text"` for an empty argument)
is one of text, markdown, html; and it is invalid whenever the trimmed content
is shorter than 2, regardless of format. -/
theorem is_valid_characterization (content fmt : String)
    (metadata : Option (List (String × String))) (now : Nat) :
    ((SpecInput.make content fmt metadata now).is_valid = true
        ↔ (2 ≤ (pyStrip content).length
            ∧ ((if fmt = "" then "text" else lowerStr fmt) = "text"
              ∨ (if fmt = "" then "text" else lowerStr fmt) = "markdown"
              ∨ (if fmt = "" then "text" else lowerStr fmt) = "html")))
      ∧ ((pyStrip content).length < 2
          → (SpecInput.make content fmt metadata now).is_valid = false) := by
  constructor
  · have h := spec_is_valid_iff (SpecInput.make content fmt metadata now)
    have hco : (SpecInput.make content fmt metadata now).content = content := rfl
    have hfo : (SpecInput.make content fmt metadata now).format
        = (if fmt = "" then "text" else lowerStr fmt) := rfl
    rw [hco, hfo] at h
    rw [h]
    tauto
  · intro hlt
    cases hb : (SpecInput.make content fmt metadata now).is_valid with
    | false => rfl
    | true =>
      have h2 := ((spec_is_valid_iff _).mp hb).1
      have hco : (SpecInput.make content fmt metadata now).content = content := rfl
      rw [hco] at h2
      exact absurd h2 (by omega)

/-- C2 witness: an upper-case spelling of a recognized format is valid, and a
one-character content is invalid even with a recognized format. -/
theorem is_valid_characterization_witness :
    (SpecInput.make "hello" "HTML" none 0).is_valid = true
      ∧ (SpecInput.make "x" "markdown" none 0).is_valid = false :=
  ⟨(is_valid_characterization "hello" "HTML" none 0).1.mpr (by decide),
   (is_valid_characterization "x" "markdown" none 0).2 (by decide)⟩

/-- C5: once `sanitize` has been called on an instance, every later `sanitize`
call on the resulting instance returns the identical cached string, even if
the `content` field is externally mutated in between. -/
theorem sanitize_cache_stability (sp : SpecInput) (newContent : String) :
    ({ sp.sanitize.2 with content := newContent }).sanitize.1 = sp.sanitize.1
      ∧ (sp.sanitize.2).sanitize.1 = sp.sanitize.1 := by
  cases h : sp.sanitized_cache with
  | some c => simp [SpecInput.sanitize, h]
  | none => simp [SpecInput.sanitize, h]

/-- C6: for every argument that is not a `SpecInput` instance, `process_spec`
returns (does not raise) a failure result with the exact message
"Invalid input: must be SpecInput instance" and leaves the history
unchanged. -/
theorem process_spec_wrong_type (svc : SpecInputService) (d : String)
    (now : Nat) :
    svc.process_spec (ProcessArg.other d) now
      = (Except.ok
          { success := false
            message := "Invalid input: must be SpecInput instance"
            data := ResultData.empty
            timestamp := now }, svc) := rfl

/-- C10: the unpaired-tag removal pattern `<tag[^>]*/?>` matches any tag whose
name merely begins with a harmful name: `sanitize` removes `<formula x>`
(prefix `form`) and `<inputs>` (prefix `input`) although neither tag is in the
harmful set. -/
theorem harmful_tag_prefix_match :
    sanitizeContent "a<formula x>b" = "ab"
      ∧ sanitizeContent "<inputs>ok" = "ok" := by
  constructor
  · decide
  · decide

/-- C3 counterexample: sanitization is not idempotent as a function of
content.  Removing the `<iframe></iframe>` block from
`"<scr<iframe></iframe>ipt>x</script>"` splices the surrounding text into
`"<script>x</script>"`, which a second sanitization removes entirely. -/
theorem sanitize_not_idempotent :
    sanitizeContent (sanitizeContent "<scr<iframe></iframe>ipt>x</script>")
      ≠ sanitizeContent "<scr<iframe></iframe>ipt>x</script>" := by
  decide

/-- C3 amended: sanitizing an already-sanitized content yields the same string
provided the sanitized content contains no further removable pattern (the
removal passes leave it unchanged).  In general the removal passes can splice
the surrounding text into new removable patterns, so idempotence can fail. -/
theorem sanitize_idempotent_of_no_new_patterns (c : String)
    (h : removeHarmful ((sanitizeContent c).toList) = (sanitizeContent c).toList) :
    sanitizeContent (sanitizeContent c) = sanitizeContent c := by
  unfold sanitizeContent sanitizeList
  unfold sanitizeContent sanitizeList at h
  rw [toList_asString] at h
  rw [toList_asString, h, stripList_idem]

/-- C3 amended witness: a content whose sanitization leaves no removable
pattern, on which sanitization is idempotent. -/
theorem sanitize_idempotent_of_no_new_patterns_witness :
    removeHarmful ((sanitizeContent "<iframe></iframe> hi").toList)
        = (sanitizeContent "<iframe></iframe> hi").toList
      ∧ sanitizeContent (sanitizeContent "<iframe></iframe> hi")
        = sanitizeContent "<iframe></iframe> hi" :=
  ⟨by decide, sanitize_idempotent_of_no_new_patterns "<iframe></iframe> hi" (by decide)⟩

/-- C8: `sanitize` removes every non-greedy, case-insensitive script block and
trims the result: scenario C yields `"Valid content"` with no `<script>`
substring remaining; a mixed-case opening tag with attributes and multi-line
body is removed; each of two blocks is removed shortest-match (a greedy match
would also delete the text between the blocks); the result is trimmed. -/
theorem sanitize_removes_script_blocks :
    sanitizeContent "<script>alert(\x27x\x27)</script>Valid content"
        = "Valid content"
      ∧ containsSub "<script>"
          (sanitizeContent "<script>alert(\x27x\x27)</script>Valid content")
        = false
      ∧ sanitizeContent "pre<SCRIPT type=\x22a\x22>\nmulti\nline</ScRiPt>post"
        = "prepost"
      ∧ sanitizeContent "a<script>1</script>b<script>2</script>c" = "abc"
      ∧ sanitizeContent "  spaced  " = "spaced" := by
  refine ⟨by decide, by decide, by decide, by decide, by decide⟩

/-- C4: every `process_spec` call is atomic with respect to the history: a
valid input produces a success result and appends exactly the processed input;
an invalid input raises and leaves the history unchanged; a wrong-typed input
returns a failure result and leaves the history unchanged; a successful call
grows the count by one (so three successful calls grow it by three); and
`clear_processed_specs` resets the count to 0. -/
theorem process_spec_atomic (svc : SpecInputService) (sp : SpecInput)
    (d : String) (now : Nat) :
    (sp.is_valid = true →
        ((svc.process_spec (ProcessArg.spec sp) now).2.processed_specs
            = svc.processed_specs ++ [sp.sanitize.2]
          ∧ ∃ r, (svc.process_spec (ProcessArg.spec sp) now).1 = Except.ok r
              ∧ r.success = true))
      ∧ (sp.is_valid = false →
          ((svc.process_spec (ProcessArg.spec sp) now).2 = svc
            ∧ ∃ e, (svc.process_spec (ProcessArg.spec sp) now).1
                = Except.error e))
      ∧ (svc.process_spec (ProcessArg.other d) now).2 = svc
      ∧ (svc.clear_processed_specs).get_processed_count = 0
      ∧ (sp.is_valid = true →
          (svc.process_spec (ProcessArg.spec sp) now).2.get_processed_count
            = svc.get_processed_count + 1) := by
  refine ⟨?_, ?_, rfl, rfl, ?_⟩
  · intro h
    constructor
    · simp [SpecInputService.process_spec, h]
    · exact ⟨{ success := true
               message := "Specification processed successfully"
               data := ResultData.metrics sp.content.length sp.sanitize.1.length
                 sp.format sp.created_at now
               timestamp := now },
        by simp [SpecInputService.process_spec, h], rfl⟩
  · intro h
    constructor
    · simp [SpecInputService.process_spec, h]
    · exact ⟨"Invalid specification: " ++ sp.str,
        by simp [SpecInputService.process_spec, h]⟩
  · intro h
    simp [SpecInputService.process_spec, h,
      SpecInputService.get_processed_count]

/-- C4 witness: a concrete successful call appends exactly the processed
input to the (empty) history. -/
theorem process_spec_atomic_witness :
    ((SpecInputService.mk []).process_spec
        (ProcessArg.spec (SpecInput.make "hello world" "text" none 0)) 1).2.processed_specs
      = [] ++ [(SpecInput.make "hello world" "text" none 0).sanitize.2] :=
  ((process_spec_atomic (SpecInputService.mk [])
      (SpecInput.make "hello world" "text" none 0) "nope" 1).1 (by decide)).1

/-- C7: `handle_invalid_spec` never raises (it is a total function); on a null
argument it returns the failure result "Cannot process null specification"; on
a `SpecInput` it returns a failure result whose `data.errors` is the ordered
list holding the content-too-short message (naming the minimum length 2) iff
the trimmed content is shorter than 2, then the invalid-format message (naming
the offending value and the valid set) iff the format is unrecognized; the
list is empty exactly when `is_valid` is true. -/
theorem handle_invalid_spec_contract (svc : SpecInputService) (sp : SpecInput)
    (now : Nat) :
    (svc.handle_invalid_spec none now).success = false
      ∧ (svc.handle_invalid_spec none now).message
          = "Cannot process null specification"
      ∧ (svc.handle_invalid_spec (some sp) now).success = false
      ∧ (svc.handle_invalid_spec (some sp) now).data
          = ResultData.errors
              ((if (pyStrip sp.content).length < 2
                  then ["Content too short (minimum 2 characters)"] else [])
                ++ (if ¬ (SpecInput.VALID_FORMATS.contains sp.format)
                  then ["Invalid format \x27" ++ sp.format
                    ++ "\x27. Valid formats: markdown, text, html"] else []))
      ∧ (SpecInputService.get_validation_errors sp = [] ↔ sp.is_valid = true) := by
  refine ⟨rfl, rfl, rfl, ?_, ?_⟩
  · show ResultData.errors (SpecInputService.get_validation_errors sp) = _
    unfold SpecInputService.get_validation_errors
    have hshort : "Content too short (minimum "
        ++ toString SpecInput.MIN_CONTENT_LENGTH ++ " characters)"
        = "Content too short (minimum 2 characters)" := by decide
    have hMIN : SpecInput.MIN_CONTENT_LENGTH = 2 := rfl
    have hBJ : "\x27. Valid formats: "
        ++ String.intercalate ", " SpecInput.VALID_FORMATS
        = "\x27. Valid formats: markdown, text, html" := by decide
    have hfmtmsg : "Invalid format \x27" ++ sp.format ++ "\x27. Valid formats: "
        ++ String.intercalate ", " SpecInput.VALID_FORMATS
        = "Invalid format \x27" ++ sp.format
          ++ "\x27. Valid formats: markdown, text, html" := by
      simp only [String.append_assoc]
      rw [hBJ]
    rw [hshort, hMIN, hfmtmsg]
  · constructor
    · intro h
      unfold SpecInputService.get_validation_errors at h
      by_cases h1 : (pyStrip sp.content).length < SpecInput.MIN_CONTENT_LENGTH
      · rw [if_pos h1] at h
        exact absurd h (by simp)
      · by_cases h2 : SpecInput.VALID_FORMATS.contains sp.format = true
        · exact (spec_is_valid_iff sp).mpr
            ⟨by simpa [SpecInput.MIN_CONTENT_LENGTH, Nat.not_lt] using h1,
             (contains_valid_formats sp.format).mp h2⟩
        · rw [if_neg h1, if_pos (by simpa using h2)] at h
          exact absurd h (by simp)
    · intro hv
      rcases (spec_is_valid_iff sp).mp hv with ⟨hlen, hfmt⟩
      unfold SpecInputService.get_validation_errors
      rw [if_neg (by simp [SpecInput.MIN_CONTENT_LENGTH]; omega),
        if_neg (not_not_intro ((contains_valid_formats sp.format).mpr hfmt))]
      rfl

/-- C9: sanitization never lengthens content, and in every success result of
`process_spec` the recorded sanitized length is at most the original length
(for instances whose sanitize cache is absent or consistent with the current
content, i.e. whose `content` was not externally mutated after `sanitize`). -/
theorem sanitize_never_lengthens (c : String) (svc : SpecInputService)
    (sp : SpecInput) (now : Nat) :
    (sanitizeContent c).length ≤ c.length
      ∧ (CacheConsistent sp →
          ∀ r ol sl f ca pa,
            (svc.process_spec (ProcessArg.spec sp) now).1 = Except.ok r →
            r.data = ResultData.metrics ol sl f ca pa →
            sl ≤ ol) := by
  refine ⟨sanitizeContent_length c, ?_⟩
  intro hcc r ol sl f ca pa h1 h2
  by_cases hv : sp.is_valid = true
  · have he : (svc.process_spec (ProcessArg.spec sp) now).1
        = Except.ok
            { success := true
              message := "Specification processed successfully"
              data := ResultData.metrics sp.content.length sp.sanitize.1.length
                sp.format sp.created_at now
              timestamp := now } := by
      simp [SpecInputService.process_spec, hv]
    rw [he] at h1
    injection h1 with h1
    rw [← h1] at h2
    injection h2 with e1 e2 e3 e4 e5
    subst e1
    subst e2
    have hs : sp.sanitize.1 = sanitizeContent sp.content := by
      rcases hcc with hcase | hcase
      · simp [SpecInput.sanitize, hcase]
      · simp [SpecInput.sanitize, hcase]
    rw [hs]
    exact sanitizeContent_length _
  · simp [SpecInputService.process_spec, hv] at h1

/-- C9 witness: a fresh two-character input is cache-consistent and yields a
success record whose sanitized length equals (hence is at most) the original
length. -/
theorem sanitize_never_lengthens_witness :
    CacheConsistent (SpecInput.make "ab" "text" none 0) ∧ (2 : Nat) ≤ 2 :=
  ⟨Or.inl rfl,
   (sanitize_never_lengthens "ab" (SpecInputService.mk [])
      (SpecInput.make "ab" "text" none 0) 5).2 (Or.inl rfl)
     { success := true,
       message := "Specification processed successfully",
       data := ResultData.metrics 2 2 "text" 0 5,
       timestamp := 5 }
     2 2 "text" 0 5 (by rfl) (by rfl)⟩
